import Mathlib

/-!
Shallow embedding of `src/body.rs` from the `http-types` crate: the streaming
HTTP `Body` type with its bounded-read protocol, buffered peek, and body
chaining.  Bytes are modelled as natural numbers, byte buffers as `List Nat`,
and the underlying `dyn AsyncBufRead` reader as an inductive `Reader`: either
an in-memory cursor (`io::Cursor`, used by `from_bytes`/`from_string`/
`from_reader` in the tests) or the composite produced by
`futures_lite::io::AsyncReadExt::chain`, which holds two `Body` values and a
`done_first` flag.  u64 arithmetic is `Nat` with wrapping subtraction and
checked addition made explicit where the source performs them.
Async polling always resolves immediately in this pure model (the cursor
source is always ready), so `poll_read` is a function from a buffer capacity
to the bytes produced plus the successor state.
-/

namespace HttpBody

/-- The modulus `2 ^ 64` of Rust's `u64` arithmetic. -/
def u64size : Nat := 2 ^ 64

/-- Wrapping `u64` subtraction (`a.wrapping_sub(b)`) for `a b < u64size`.
The source subtracts `length - bytes_read` directly; in release mode Rust
subtraction wraps, which this mirrors. -/
def wsub (a b : Nat) : Nat := (a + (u64size - b % u64size)) % u64size

/-- Rust's `u64::checked_add`: `some (a + b)` unless the sum overflows. -/
def checkedAdd (a b : Nat) : Option Nat :=
  if a + b < u64size then some (a + b) else none

theorem wsub_eq_sub {a b : Nat} (hba : b ≤ a) (ha : a < u64size) :
    wsub a b = a - b := by
  have hb : b < u64size := lt_of_le_of_lt hba ha
  unfold wsub
  rw [Nat.mod_eq_of_lt hb]
  have h1 : a + (u64size - b) = u64size + (a - b) := by omega
  rw [h1, Nat.add_mod_left, Nat.mod_eq_of_lt (by omega)]

/-- The MIME constants of `crate::mime` that `body.rs` mentions
(`BYTE_STREAM = application/octet-stream`, `PLAIN = text/plain`,
`JSON`, `FORM`, plus `CSS` from the `set_mime` example). -/
inductive Mime where
  | byteStream
  | plain
  | json
  | form
  | css
deriving DecidableEq, Repr

mutual

/-- The type-erased `Box<dyn AsyncBufRead>` held by a `Body`: an in-memory
cursor over bytes, or `futures_lite`'s `Chain` of two `Body` values with its
`done_first` flag. -/
inductive Reader where
  | cursor (data : List Nat) (pos : Nat)
  | chained (first second : Body) (doneFirst : Bool)

/-- The `Body` struct: `reader`, `mime`, `length`, `bytes_read`. -/
inductive Body where
  | mk (reader : Reader) (mime : Option Mime) (length : Option Nat) (bytesRead : Nat)

end

def Body.reader : Body → Reader
  | .mk r _ _ _ => r

def Body.mime : Body → Option Mime
  | .mk _ m _ _ => m

def Body.length : Body → Option Nat
  | .mk _ _ l _ => l

def Body.bytesRead : Body → Nat
  | .mk _ _ _ n => n

theorem Body.eta (b : Body) : Body.mk b.reader b.mime b.length b.bytesRead = b := by
  cases b
  rfl

mutual

/-- One poll of the underlying reader with a destination buffer of capacity
`c`: the bytes produced and the successor reader.  A cursor yields
`min c remaining` bytes (`io::Cursor::poll_read`).  The chained reader is
`futures_lite`'s `Chain::poll_read`: while `done_first` is false it polls the
first body; on `Ok(0)` with a non-empty buffer it sets `done_first` and polls
the second body in the same call, otherwise it returns the first body's
bytes. -/
def Reader.read : Nat → Reader → List Nat × Reader
  | c, .cursor data pos =>
      ((data.drop pos).take (min c (data.length - pos)),
       .cursor data (pos + min c (data.length - pos)))
  | c, .chained b1 b2 true =>
      ((b2.pollRead c).1, .chained b1 (b2.pollRead c).2 true)
  | c, .chained b1 b2 false =>
      if (b1.pollRead c).1 = [] ∧ c ≠ 0 then
        ((b2.pollRead c).1, .chained (b1.pollRead c).2 (b2.pollRead c).2 true)
      else
        ((b1.pollRead c).1, .chained (b1.pollRead c).2 b2 false)

/-- The source's `impl AsyncRead for Body::poll_read` with a buffer of capacity `c`.
With no declared length the whole buffer is handed to the reader.  With
`length = some L`: if `L = bytes_read` return 0 bytes at once without
touching the reader; otherwise clamp the window to
`min ((L - bytes_read).wrapping) c` ( `(length - self.bytes_read).min(buf.len())` )
and add the bytes produced to `bytes_read`. -/
def Body.pollRead : Nat → Body → List Nat × Body
  | c, .mk reader mime none bytesRead =>
      ((reader.read c).1,
       .mk (reader.read c).2 mime none (bytesRead + (reader.read c).1.length))
  | c, .mk reader mime (some L) bytesRead =>
      if L = bytesRead then ([], .mk reader mime (some L) bytesRead)
      else
        ((reader.read (min (wsub L bytesRead) c)).1,
         .mk (reader.read (min (wsub L bytesRead) c)).2 mime (some L)
           (bytesRead + (reader.read (min (wsub L bytesRead) c)).1.length))

end

mutual

/-- Buffered peek, `poll_fill_buf`: a cursor exposes all bytes from its position
(`&data[pos..]`); the chained reader (`Chain::poll_fill_buf`) fills from the
first body, switching `done_first` when the first body's view is empty; the
`Body` itself forwards straight to its reader (no length cutoff). -/
def Reader.fillBuf : Reader → List Nat × Reader
  | .cursor data pos => (data.drop pos, .cursor data pos)
  | .chained b1 b2 true =>
      ((b2.fillBuf).1, .chained b1 (b2.fillBuf).2 true)
  | .chained b1 b2 false =>
      if (b1.fillBuf).1 = [] then
        ((b2.fillBuf).1, .chained (b1.fillBuf).2 (b2.fillBuf).2 true)
      else
        ((b1.fillBuf).1, .chained (b1.fillBuf).2 b2 false)

/-- The source's `impl AsyncBufRead for Body::poll_fill_buf`: forwards to the reader,
leaving `mime`, `length` and `bytes_read` untouched. -/
def Body.fillBuf : Body → List Nat × Body
  | .mk reader mime length bytesRead =>
      ((reader.fillBuf).1, .mk (reader.fillBuf).2 mime length bytesRead)

end

mutual

/-- Advancing past peeked bytes, `consume(amt)`: a cursor advances its position unchecked
(`self.pos += amt`); the chained reader forwards to whichever body is
current. -/
def Reader.consumeAmt : Nat → Reader → Reader
  | amt, .cursor data pos => .cursor data (pos + amt)
  | amt, .chained b1 b2 true => .chained b1 (b2.consumeAmt amt) true
  | amt, .chained b1 b2 false => .chained (b1.consumeAmt amt) b2 false

/-- The source's `impl AsyncBufRead for Body::consume`: forwards to the reader;
`bytes_read` is not updated. -/
def Body.consumeAmt : Nat → Body → Body
  | amt, .mk reader mime length bytesRead =>
      .mk (reader.consumeAmt amt) mime length bytesRead

end

/-- Constructor `Body::empty()`: zero length, byte-stream MIME, empty source. -/
def Body.empty : Body :=
  .mk (.cursor [] 0) (some .byteStream) (some 0) 0

/-- Constructor `Body::from_reader(reader, length)`. -/
def Body.from_reader (r : Reader) (length : Option Nat) : Body :=
  .mk r (some .byteStream) length 0

/-- Constructor `Body::from_bytes(bytes)`: length is the byte count, MIME byte-stream. -/
def Body.from_bytes (bytes : List Nat) : Body :=
  .mk (.cursor bytes 0) (some .byteStream) (some bytes.length) 0

/-- Constructor `Body::from_string(s)`: over the UTF-8 bytes of `s`; length is the byte
count, MIME plain-text. -/
def Body.from_string (s : List Nat) : Body :=
  .mk (.cursor s 0) (some .plain) (some s.length) 0

/-- Accessor `Body::len()`. -/
def Body.len (b : Body) : Option Nat := b.length

/-- Accessor `Body::is_empty()`. -/
def Body.is_empty (b : Body) : Option Bool := b.length.map (fun length => length == 0)

/-- Setter `Body::set_mime(mime)`. -/
def Body.set_mime (b : Body) (m : Option Mime) : Body :=
  .mk b.reader m b.length b.bytesRead

/-- The length computation of `Body::chain`:
`(l1 - self.bytes_read).checked_add(l2 - other.bytes_read)` when both lengths
are declared, `None` otherwise. -/
def chainLength : Option Nat → Nat → Option Nat → Nat → Option Nat
  | some l1, n1, some l2, n2 => checkedAdd (wsub l1 n1) (wsub l2 n2)
  | _, _, _, _ => none

/-- The source's `Body::chain(self, other)`: MIME is kept when equal, else byte-stream;
length is `chainLength`; the reader is the `Chain` composite and
`bytes_read` restarts at 0. -/
def Body.chain (self other : Body) : Body :=
  .mk (.chained self other false)
    (if self.mime = other.mime then self.mime else some .byteStream)
    (chainLength self.length self.bytesRead other.length other.bytesRead)
    0

/-- The read loop of the test helper `read_with_buffers_of_size`: repeatedly
`poll_read` with capacity `c`, stopping at the first empty read
(end-of-stream); `fuel` bounds the number of polls. -/
def Body.readAll : Nat → Nat → Body → List Nat × Body
  | _, 0, b => ([], b)
  | c, fuel + 1, b =>
      if (b.pollRead c).1 = [] then ([], (b.pollRead c).2)
      else
        ((b.pollRead c).1 ++ ((b.pollRead c).2.readAll c fuel).1,
         ((b.pollRead c).2.readAll c fuel).2)

mutual

/-- Denotation: the full byte sequence a reader would deliver if polled to
end-of-stream. -/
def Reader.out : Reader → List Nat
  | .cursor data pos => data.drop pos
  | .chained _ b2 true => b2.out
  | .chained b1 b2 false => b1.out ++ b2.out

/-- Denotation: the full byte sequence a `Body` delivers through bounded
reads before end-of-stream: its reader's output, truncated at the declared
remaining length when a length is declared. -/
def Body.out : Body → List Nat
  | .mk reader _ none _ => reader.out
  | .mk reader _ (some L) bytesRead => (reader.out).take (L - bytesRead)

end

mutual

/-- Machine-level well-formedness of a reader: every body nested in a chain
is well-formed. -/
def Reader.wf : Reader → Bool
  | .cursor _ _ => true
  | .chained b1 b2 _ => b1.wf && b2.wf

/-- Machine-level well-formedness of a `Body`: the `u64` field `length`, when
declared, is below `2 ^ 64` and bounds `bytes_read`, and the reader is
well-formed. -/
def Body.wf : Body → Bool
  | .mk reader _ none _ => reader.wf
  | .mk reader _ (some L) bytesRead =>
      decide (bytesRead ≤ L) && decide (L < u64size) && reader.wf

end

/-- The `Body` states reachable through the public constructors and
operations.  The side conditions on the constructors record what Rust's
types enforce: a `Vec` length fits in `u64`, and a `length` argument is a
`u64`. -/
inductive Reachable : Body → Prop where
  | empty : Reachable Body.empty
  | from_bytes (bytes : List Nat) (h : bytes.length < u64size) :
      Reachable (Body.from_bytes bytes)
  | from_string (s : List Nat) (h : s.length < u64size) :
      Reachable (Body.from_string s)
  | from_reader (r : Reader) (len : Option Nat) (h : ∀ L, len = some L → L < u64size) :
      Reachable (Body.from_reader r len)
  | chain (b1 b2 : Body) : Reachable b1 → Reachable b2 → Reachable (b1.chain b2)
  | set_mime (b : Body) (m : Option Mime) : Reachable b → Reachable (b.set_mime m)
  | read (b : Body) (c : Nat) : Reachable b → Reachable (b.pollRead c).2
  | fill (b : Body) : Reachable b → Reachable (b.fillBuf).2
  | consume_op (b : Body) (amt : Nat) : Reachable b → Reachable (b.consumeAmt amt)

/-- Error kinds of the converters: the status codes attached by
`into_string`. -/
inductive BodyError where
  | payloadTooLarge
  | unprocessableEntity
deriving DecidableEq, Repr

/-- The source's `Body::into_string`: first `usize::try_from(self.len().unwrap_or(0))`,
failing with `PayloadTooLarge` when the declared length exceeds the
platform's `usize::MAX` (parameter `usizeMax`) — before any read; then
`String::with_capacity(len)` (the capacity hint, returned as the first
component to make it observable) and `read_to_string`, modelled as a drain
by bounded reads of capacity `c` bounded by `fuel`, whose result must pass
the UTF-8 validity check `valid` or fail with `UnprocessableEntity`. -/
def Body.into_string (usizeMax : Nat) (valid : List Nat → Bool) (c fuel : Nat)
    (b : Body) : Except BodyError (Nat × List Nat) :=
  if (b.len).getD 0 ≤ usizeMax then
    if valid (b.readAll c fuel).1 then
      .ok ((b.len).getD 0, (b.readAll c fuel).1)
    else .error .unprocessableEntity
  else .error .payloadTooLarge

mutual

theorem Reader.read_len_le : ∀ (c : Nat) (r : Reader), ((r.read c).1).length ≤ c
  | c, .cursor data pos => by
      simp only [Reader.read, List.length_take]
      omega
  | c, .chained b1 b2 true => by
      simpa only [Reader.read] using Body.pollRead_len_le c b2
  | c, .chained b1 b2 false => by
      simp only [Reader.read]
      split
      · exact Body.pollRead_len_le c b2
      · exact Body.pollRead_len_le c b1

theorem Body.pollRead_len_le : ∀ (c : Nat) (b : Body), ((b.pollRead c).1).length ≤ c
  | c, .mk reader mime none bytesRead => by
      simpa only [Body.pollRead] using Reader.read_len_le c reader
  | c, .mk reader mime (some L) bytesRead => by
      simp only [Body.pollRead]
      split
      · simp
      · exact le_trans (Reader.read_len_le _ reader) (min_le_right _ _)

end

theorem Body.pollRead_bytesRead (c : Nat) (b : Body) :
    ((b.pollRead c).2).bytesRead = b.bytesRead + ((b.pollRead c).1).length := by
  cases b with
  | mk reader mime length bytesRead =>
    cases length with
    | none => simp [Body.pollRead, Body.bytesRead]
    | some L =>
      simp only [Body.pollRead]
      split
      · simp [Body.bytesRead]
      · simp [Body.bytesRead]

theorem Body.pollRead_length (c : Nat) (b : Body) :
    ((b.pollRead c).2).length = b.length := by
  cases b with
  | mk reader mime length bytesRead =>
    cases length with
    | none => simp [Body.pollRead, Body.length]
    | some L =>
      simp only [Body.pollRead]
      split
      · simp [Body.length]
      · simp [Body.length]

theorem Body.pollRead_mime (c : Nat) (b : Body) :
    ((b.pollRead c).2).mime = b.mime := by
  cases b with
  | mk reader mime length bytesRead =>
    cases length with
    | none => simp [Body.pollRead, Body.mime]
    | some L =>
      simp only [Body.pollRead]
      split
      · simp [Body.mime]
      · simp [Body.mime]

theorem Body.fillBuf_fields (b : Body) :
    ((b.fillBuf).2).length = b.length ∧ ((b.fillBuf).2).mime = b.mime ∧
      ((b.fillBuf).2).bytesRead = b.bytesRead := by
  cases b with
  | mk reader mime length bytesRead =>
    simp [Body.fillBuf, Body.length, Body.mime, Body.bytesRead]

theorem Body.consumeAmt_fields (amt : Nat) (b : Body) :
    (b.consumeAmt amt).length = b.length ∧ (b.consumeAmt amt).mime = b.mime ∧
      (b.consumeAmt amt).bytesRead = b.bytesRead := by
  cases b with
  | mk reader mime length bytesRead =>
    simp [Body.consumeAmt, Body.length, Body.mime, Body.bytesRead]

theorem Body.readAll_bytesRead (c fuel : Nat) (b : Body) :
    ((b.readAll c fuel).2).bytesRead = b.bytesRead + ((b.readAll c fuel).1).length := by
  induction fuel generalizing b with
  | zero => simp [Body.readAll]
  | succ n ih =>
    simp only [Body.readAll]
    split
    · rename_i h
      rw [Body.pollRead_bytesRead, h]
    · simp only [List.length_append]
      rw [ih, Body.pollRead_bytesRead]
      omega

theorem Body.readAll_length (c fuel : Nat) (b : Body) :
    ((b.readAll c fuel).2).length = b.length := by
  induction fuel generalizing b with
  | zero => simp [Body.readAll]
  | succ n ih =>
    simp only [Body.readAll]
    split
    · exact Body.pollRead_length c b
    · rw [ih, Body.pollRead_length]

mutual

theorem Reader.read_out : ∀ (c : Nat) (r : Reader), 1 ≤ c → r.wf = true →
    r.out = (r.read c).1 ++ ((r.read c).2).out ∧ ((r.read c).2).wf = true ∧
      ((r.read c).1 = [] → r.out = [])
  | c, .cursor data pos, hc, _ => by
      refine ⟨?_, by simp [Reader.read, Reader.wf], ?_⟩
      · simp only [Reader.read, Reader.out]
        conv_lhs => rw [← List.take_append_drop (min c (data.length - pos)) (data.drop pos)]
        congr 1
        rw [List.drop_drop]
      · intro h
        simp only [Reader.read, List.take_eq_nil_iff] at h
        simp only [Reader.out, List.drop_eq_nil_iff]
        rcases h with h | h
        · omega
        · rw [List.drop_eq_nil_iff] at h
          exact h
  | c, .chained b1 b2 true, hc, hwf => by
      simp only [Reader.wf, Bool.and_eq_true] at hwf
      have IH := Body.pollRead_out c b2 hc hwf.2
      refine ⟨?_, ?_, ?_⟩
      · simpa only [Reader.read, Reader.out] using IH.1
      · simp only [Reader.read, Reader.wf, Bool.and_eq_true]
        exact ⟨hwf.1, IH.2.1⟩
      · simpa only [Reader.read, Reader.out] using IH.2.2
  | c, .chained b1 b2 false, hc, hwf => by
      simp only [Reader.wf, Bool.and_eq_true] at hwf
      have IH1 := Body.pollRead_out c b1 hc hwf.1
      by_cases hemp : (b1.pollRead c).1 = []
      · have hcond : (b1.pollRead c).1 = [] ∧ c ≠ 0 := ⟨hemp, by omega⟩
        have hout1 : b1.out = [] := IH1.2.2 hemp
        have IH2 := Body.pollRead_out c b2 hc hwf.2
        refine ⟨?_, ?_, ?_⟩
        · simp only [Reader.read, if_pos hcond, Reader.out, hout1, List.nil_append]
          exact IH2.1
        · simp only [Reader.read, if_pos hcond, Reader.wf, Bool.and_eq_true]
          exact ⟨IH1.2.1, IH2.2.1⟩
        · simp only [Reader.read, if_pos hcond, Reader.out, hout1, List.nil_append]
          exact IH2.2.2
      · have hcond : ¬((b1.pollRead c).1 = [] ∧ c ≠ 0) := fun h => hemp h.1
        refine ⟨?_, ?_, ?_⟩
        · simp only [Reader.read, if_neg hcond, Reader.out]
          rw [IH1.1, List.append_assoc]
        · simp only [Reader.read, if_neg hcond, Reader.wf, Bool.and_eq_true]
          exact ⟨IH1.2.1, hwf.2⟩
        · intro h
          simp only [Reader.read, if_neg hcond] at h
          exact absurd h hemp

theorem Body.pollRead_out : ∀ (c : Nat) (b : Body), 1 ≤ c → b.wf = true →
    b.out = (b.pollRead c).1 ++ ((b.pollRead c).2).out ∧ ((b.pollRead c).2).wf = true ∧
      ((b.pollRead c).1 = [] → b.out = [])
  | c, .mk reader mime none bytesRead, hc, hwf => by
      simp only [Body.wf] at hwf
      have IH := Reader.read_out c reader hc hwf
      refine ⟨?_, ?_, ?_⟩
      · simpa only [Body.pollRead, Body.out] using IH.1
      · simpa only [Body.pollRead, Body.wf] using IH.2.1
      · simpa only [Body.pollRead, Body.out] using IH.2.2
  | c, .mk reader mime (some L) bytesRead, hc, hwf => by
      simp only [Body.wf, Bool.and_eq_true, decide_eq_true_eq] at hwf
      obtain ⟨⟨hbr, hL⟩, hrwf⟩ := hwf
      by_cases heq : L = bytesRead
      · have hout : Body.out (.mk reader mime (some L) bytesRead) = [] := by
          simp [Body.out, heq]
        refine ⟨?_, ?_, fun _ => hout⟩
        · simp only [Body.pollRead, if_pos heq, hout, List.nil_append]
        · simp only [Body.pollRead, if_pos heq, Body.wf, Bool.and_eq_true, decide_eq_true_eq]
          exact ⟨⟨hbr, hL⟩, hrwf⟩
      · have hws : wsub L bytesRead = L - bytesRead := wsub_eq_sub hbr hL
        have hm1 : 1 ≤ min (wsub L bytesRead) c := by
          rw [hws]
          omega
        have IH := Reader.read_out (min (wsub L bytesRead) c) reader hm1 hrwf
        have hlen : ((reader.read (min (wsub L bytesRead) c)).1).length ≤ L - bytesRead := by
          refine le_trans (Reader.read_len_le _ reader) ?_
          rw [hws] at *
          exact min_le_left _ _
        refine ⟨?_, ?_, ?_⟩
        · simp only [Body.pollRead, if_neg heq, Body.out]
          rw [IH.1, List.take_append_eq_append_take,
            List.take_of_length_le (le_trans hlen (by omega))]
          congr 1
          congr 1
          omega
        · simp only [Body.pollRead, if_neg heq, Body.wf, Bool.and_eq_true, decide_eq_true_eq]
          refine ⟨⟨by omega, hL⟩, IH.2.1⟩
        · intro h
          simp only [Body.pollRead, if_neg heq] at h
          have := IH.2.2 h
          simp [Body.out, this]

end

/-- Draining a well-formed body with any chunk capacity `c ≥ 1` and enough
fuel yields exactly its denotation `out`. -/
theorem Body.readAll_out (c : Nat) : ∀ (fuel : Nat) (b : Body), 1 ≤ c → b.wf = true →
    (b.out).length < fuel → (b.readAll c fuel).1 = b.out := by
  intro fuel
  induction fuel with
  | zero => omega
  | succ n ih =>
    intro b hc hwf hfuel
    have step := Body.pollRead_out c b hc hwf
    simp only [Body.readAll]
    split
    · rename_i h
      exact (step.2.2 h).symm
    · rename_i h
      have hlen : ((b.pollRead c).1).length ≥ 1 := by
        cases hx : (b.pollRead c).1 with
        | nil => exact absurd hx h
        | cons a t => simp
      have hout' : (((b.pollRead c).2).out).length < n := by
        have : (b.out).length = ((b.pollRead c).1).length + (((b.pollRead c).2).out).length := by
          rw [step.1, List.length_append]
        omega
      rw [ih (b.pollRead c).2 hc step.2.1 hout', ← step.1]

/-- Well-formedness depends only on the length bound and the reader, never on the MIME
field. -/
theorem Body.wf_mk (r : Reader) (m : Option Mime) (l : Option Nat) (n : Nat) :
    Body.wf (.mk r m l n) =
      ((match l with
        | none => true
        | some L => decide (n ≤ L) && decide (L < u64size)) && r.wf) := by
  cases l with
  | none => simp [Body.wf]
  | some L => simp [Body.wf]

/-- A chain of well-formed bodies is well-formed. -/
theorem Body.chain_wf (b1 b2 : Body) (h1 : b1.wf = true) (h2 : b2.wf = true) :
    (b1.chain b2).wf = true := by
  cases b1 with
  | mk r1 m1 l1 n1 =>
    cases b2 with
    | mk r2 m2 l2 n2 =>
      simp only [Body.chain, Body.length, Body.bytesRead, Body.mime]
      rcases l1 with _ | L1 <;> rcases l2 with _ | L2
      · simp only [chainLength, Body.wf, Reader.wf, Bool.and_eq_true, decide_eq_true_eq] at h1 h2 ⊢
        exact ⟨h1, h2⟩
      · simp only [chainLength, Body.wf, Reader.wf, Bool.and_eq_true, decide_eq_true_eq] at h1 h2 ⊢
        exact ⟨h1, h2⟩
      · simp only [chainLength, Body.wf, Reader.wf, Bool.and_eq_true, decide_eq_true_eq] at h1 h2 ⊢
        exact ⟨h1, h2⟩
      · simp only [Body.wf, Reader.wf, Bool.and_eq_true, decide_eq_true_eq] at h1 h2
        simp only [chainLength]
        unfold checkedAdd
        by_cases hov : wsub L1 n1 + wsub L2 n2 < u64size
        · rw [if_pos hov]
          simp only [Body.wf, Reader.wf, Bool.and_eq_true, decide_eq_true_eq]
          exact ⟨⟨Nat.zero_le _, hov⟩, h1, h2⟩
        · rw [if_neg hov]
          simp only [Body.wf, Reader.wf, Bool.and_eq_true, decide_eq_true_eq]
          exact ⟨h1, h2⟩

/-- The denotation of a chain of well-formed bodies is the concatenation of
the two denotations: the declared length of the chain, when present, never
truncates the composite stream. -/
theorem Body.chain_out (b1 b2 : Body) (h1 : b1.wf = true) (h2 : b2.wf = true) :
    (b1.chain b2).out = b1.out ++ b2.out := by
  cases b1 with
  | mk r1 m1 l1 n1 =>
    cases b2 with
    | mk r2 m2 l2 n2 =>
      rcases l1 with _ | L1 <;> rcases l2 with _ | L2
      · simp only [Body.chain, chainLength, Body.length, Body.bytesRead, Body.out, Reader.out]
      · simp only [Body.chain, chainLength, Body.length, Body.bytesRead, Body.out, Reader.out]
      · simp only [Body.chain, chainLength, Body.length, Body.bytesRead, Body.out, Reader.out]
      · simp only [Body.wf, Bool.and_eq_true, decide_eq_true_eq] at h1 h2
        simp only [Body.chain, chainLength, Body.length, Body.bytesRead]
        rw [wsub_eq_sub h1.1.1 h1.1.2, wsub_eq_sub h2.1.1 h2.1.2]
        unfold checkedAdd
        by_cases hov : L1 - n1 + (L2 - n2) < u64size
        · rw [if_pos hov]
          simp only [Body.out, Reader.out, Nat.sub_zero]
          have hl1 : ((r1.out).take (L1 - n1)).length ≤ L1 - n1 := by
            rw [List.length_take]
            omega
          have hl2 : ((r2.out).take (L2 - n2)).length ≤ L2 - n2 := by
            rw [List.length_take]
            omega
          refine List.take_of_length_le ?_
          rw [List.length_append]
          omega
        · rw [if_neg hov]
          simp only [Body.out, Reader.out]

/-- The state invariant of §3 of the spec: `bytes_read` never exceeds a
declared `length`, and a declared length fits in `u64`. -/
def Inv (b : Body) : Prop := ∀ L, b.length = some L → b.bytesRead ≤ L ∧ L < u64size

theorem Body.pollRead_inv (c : Nat) (b : Body) (h : Inv b) : Inv ((b.pollRead c).2) := by
  cases b with
  | mk reader mime length bytesRead =>
    cases length with
    | none =>
      intro L hL
      rw [Body.pollRead_length] at hL
      exact absurd hL (by simp [Body.length])
    | some L0 =>
      intro L hL
      rw [Body.pollRead_length] at hL
      simp only [Body.length, Option.some.injEq] at hL
      subst hL
      obtain ⟨hbr, h64⟩ := h L0 (by simp [Body.length])
      simp only [Body.pollRead]
      split
      · exact ⟨hbr, h64⟩
      · rename_i hne
        simp only [Body.bytesRead] at hbr ⊢
        have hws : wsub L0 bytesRead = L0 - bytesRead := wsub_eq_sub hbr h64
        rw [hws]
        have hlen := Reader.read_len_le (min (L0 - bytesRead) c) reader
        have hmin : min (L0 - bytesRead) c ≤ L0 - bytesRead := min_le_left _ _
        exact ⟨by omega, h64⟩

/-- Every reachable `Body` satisfies the invariant. -/
theorem reachable_inv (b : Body) (h : Reachable b) : Inv b := by
  induction h with
  | empty =>
    intro L hL
    simp only [Body.empty, Body.length, Option.some.injEq] at hL
    subst hL
    exact ⟨Nat.le_refl 0, by norm_num [u64size]⟩
  | from_bytes bytes hlt =>
    intro L hL
    simp only [Body.from_bytes, Body.length, Option.some.injEq] at hL
    subst hL
    exact ⟨Nat.zero_le _, hlt⟩
  | from_string s hlt =>
    intro L hL
    simp only [Body.from_string, Body.length, Option.some.injEq] at hL
    subst hL
    exact ⟨Nat.zero_le _, hlt⟩
  | from_reader r len hlt =>
    intro L hL
    simp only [Body.from_reader, Body.length] at hL
    exact ⟨by simp [Body.from_reader, Body.bytesRead], hlt L hL⟩
  | chain b1 b2 _ _ _ _ =>
    intro L hL
    cases b1 with
    | mk r1 m1 l1 n1 =>
      cases b2 with
      | mk r2 m2 l2 n2 =>
        simp only [Body.chain, Body.length] at hL
        rcases l1 with _ | L1 <;> rcases l2 with _ | L2
        · exact absurd hL (by simp [chainLength])
        · exact absurd hL (by simp [chainLength])
        · exact absurd hL (by simp [chainLength])
        · simp only [chainLength] at hL
          unfold checkedAdd at hL
          refine ⟨Nat.zero_le _, ?_⟩
          split at hL
          · rename_i hov
            simp only [Option.some.injEq] at hL
            omega
          · exact absurd hL (by simp)
  | set_mime b0 m _ ih =>
    intro L hL
    cases b0 with
    | mk r0 m0 l0 n0 =>
      simp only [Body.set_mime, Body.length, Body.reader, Body.bytesRead] at hL ⊢
      exact ih L hL
  | read b0 c _ ih => exact Body.pollRead_inv c b0 ih
  | fill b0 _ ih =>
    intro L hL
    rw [(Body.fillBuf_fields b0).1] at hL
    rw [(Body.fillBuf_fields b0).2.2]
    exact ih L hL
  | consume_op b0 amt _ ih =>
    intro L hL
    rw [(Body.consumeAmt_fields amt b0).1] at hL
    rw [(Body.consumeAmt_fields amt b0).2.2]
    exact ih L hL

/-- A bounded read on a body whose `bytes_read` has reached its declared
length returns 0 bytes and leaves the body (reader included) untouched. -/
theorem Body.pollRead_at_length (b : Body) (L c : Nat) (h : b.length = some L)
    (he : b.bytesRead = L) : b.pollRead c = ([], b) := by
  cases b with
  | mk reader mime length bytesRead =>
    simp only [Body.length] at h
    subst h
    simp only [Body.bytesRead] at he
    subst he
    simp [Body.pollRead]

/-- Claim C1: bounded read contract.  For a body with declared length `L`:
if `bytes_read = L` the read returns 0 bytes at once without touching the
source; if `bytes_read < L` the window handed to the source is clamped to
`min (L - bytes_read) C` and the bytes actually produced are added to
`bytes_read`. -/
theorem claim_C1 (b : Body) (L c : Nat) (h : b.length = some L) (h64 : L < u64size) :
    (b.bytesRead = L → b.pollRead c = ([], b)) ∧
    (b.bytesRead < L →
      b.pollRead c =
        (((b.reader).read (min (L - b.bytesRead) c)).1,
         .mk ((b.reader).read (min (L - b.bytesRead) c)).2 b.mime (some L)
           (b.bytesRead + (((b.reader).read (min (L - b.bytesRead) c)).1).length))) := by
  refine ⟨fun he => Body.pollRead_at_length b L c h he, ?_⟩
  intro hlt
  cases b with
  | mk reader mime length bytesRead =>
    simp only [Body.length] at h
    subst h
    simp only [Body.bytesRead, Body.reader, Body.mime] at hlt ⊢
    have hne : ¬(L = bytesRead) := by omega
    simp only [Body.pollRead, if_neg hne]
    rw [wsub_eq_sub (by omega) h64]

theorem claim_C1_witness :
    ((Body.mk (.cursor [1, 2, 3] 0) (some .byteStream) (some 0) 0).pollRead 4 =
      ([], Body.mk (.cursor [1, 2, 3] 0) (some .byteStream) (some 0) 0)) ∧
    ((Body.mk (.cursor [1, 2, 3] 0) (some .byteStream) (some 2) 0).pollRead 5 =
      (((Reader.cursor [1, 2, 3] 0).read (min (2 - 0) 5)).1,
       .mk ((Reader.cursor [1, 2, 3] 0).read (min (2 - 0) 5)).2 (some .byteStream) (some 2)
         (0 + (((Reader.cursor [1, 2, 3] 0).read (min (2 - 0) 5)).1).length))) :=
  ⟨(claim_C1 (Body.mk (.cursor [1, 2, 3] 0) (some .byteStream) (some 0) 0) 0 4 rfl
      (by norm_num [u64size])).1 rfl,
   (claim_C1 (Body.mk (.cursor [1, 2, 3] 0) (some .byteStream) (some 2) 0) 2 5 rfl
      (by norm_num [u64size])).2 (by decide)⟩

/-- Claim C2: for every declared length `L`, every source holding at least
`L` bytes, and every per-call buffer capacity `c ≥ 1`, draining the body
yields exactly the first `L` bytes of the source, leaves `bytes_read = L`,
and every further bounded read returns 0 bytes. -/
theorem claim_C2 (data : List Nat) (L c fuel : Nat) (hLdata : L ≤ data.length)
    (h64 : L < u64size) (hc : 1 ≤ c) (hfuel : L < fuel) :
    (((Body.from_reader (.cursor data 0) (some L)).readAll c fuel).1 = data.take L) ∧
    ((((Body.from_reader (.cursor data 0) (some L)).readAll c fuel).2).bytesRead = L) ∧
    (∀ c2, (((Body.from_reader (.cursor data 0) (some L)).readAll c fuel).2).pollRead c2 =
      ([], ((Body.from_reader (.cursor data 0) (some L)).readAll c fuel).2)) := by
  have hwf : (Body.from_reader (.cursor data 0) (some L)).wf = true := by
    simp [Body.from_reader, Body.wf, Reader.wf, h64]
  have hout : (Body.from_reader (.cursor data 0) (some L)).out = data.take L := by
    simp [Body.from_reader, Body.out, Reader.out]
  have houtlen : ((Body.from_reader (.cursor data 0) (some L)).out).length < fuel := by
    rw [hout, List.length_take]
    omega
  have h1 := Body.readAll_out c fuel (Body.from_reader (.cursor data 0) (some L)) hc hwf houtlen
  rw [hout] at h1
  have h2 := Body.readAll_bytesRead c fuel (Body.from_reader (.cursor data 0) (some L))
  rw [h1] at h2
  have hbr0 : (Body.from_reader (.cursor data 0) (some L)).bytesRead = 0 := rfl
  rw [hbr0, List.length_take] at h2
  have h2' : (((Body.from_reader (.cursor data 0) (some L)).readAll c fuel).2).bytesRead = L := by
    omega
  refine ⟨h1, h2', fun c2 => ?_⟩
  refine Body.pollRead_at_length _ L c2 ?_ h2'
  rw [Body.readAll_length]
  rfl

theorem claim_C2_witness :
    (((Body.from_reader (.cursor [1, 2, 3, 4] 0) (some 3)).readAll 2 4).1 =
      List.take 3 [1, 2, 3, 4]) ∧
    ((((Body.from_reader (.cursor [1, 2, 3, 4] 0) (some 3)).readAll 2 4).2).bytesRead = 3) ∧
    ((((Body.from_reader (.cursor [1, 2, 3, 4] 0) (some 3)).readAll 2 4).2).pollRead 5 =
      ([], ((Body.from_reader (.cursor [1, 2, 3, 4] 0) (some 3)).readAll 2 4).2)) := by
  have h := claim_C2 [1, 2, 3, 4] 3 2 4 (by norm_num) (by norm_num [u64size])
    (by norm_num) (by norm_num)
  exact ⟨h.1, h.2.1, h.2.2 5⟩

/-- Claim C3: for reachable bodies a declared length always bounds
`bytes_read`; `bytes_read` starts at 0 in every constructor, chaining
included; and it is non-decreasing under bounded reads and unchanged by
peek, consume and `set_mime`. -/
theorem claim_C3 :
    (∀ b L, Reachable b → b.length = some L → b.bytesRead ≤ L) ∧
    (Body.empty.bytesRead = 0) ∧
    (∀ bytes, (Body.from_bytes bytes).bytesRead = 0) ∧
    (∀ s, (Body.from_string s).bytesRead = 0) ∧
    (∀ r len, (Body.from_reader r len).bytesRead = 0) ∧
    (∀ b1 b2 : Body, (b1.chain b2).bytesRead = 0) ∧
    (∀ (b : Body) (c : Nat), b.bytesRead ≤ ((b.pollRead c).2).bytesRead) ∧
    (∀ b : Body, ((b.fillBuf).2).bytesRead = b.bytesRead) ∧
    (∀ (b : Body) (amt : Nat), (b.consumeAmt amt).bytesRead = b.bytesRead) ∧
    (∀ (b : Body) (m : Option Mime), (b.set_mime m).bytesRead = b.bytesRead) := by
  refine ⟨fun b L hr hl => (reachable_inv b hr L hl).1, rfl, fun _ => rfl, fun _ => rfl,
    fun _ _ => rfl, fun _ _ => rfl, fun b c => ?_, fun b => (Body.fillBuf_fields b).2.2,
    fun b amt => (Body.consumeAmt_fields amt b).2.2, fun b m => rfl⟩
  rw [Body.pollRead_bytesRead]
  exact Nat.le_add_right _ _

theorem claim_C3_witness :
    (((Body.from_bytes [5, 6]).pollRead 1).2).bytesRead ≤ 2 :=
  claim_C3.1 _ 2
    (Reachable.read _ 1 (Reachable.from_bytes [5, 6] (by norm_num [u64size])))
    (by decide)

/-- Claim C4: chaining two bodies with declared lengths yields declared
length `(l1 - bytes_read₁) + (l2 - bytes_read₂)` unless that sum overflows
`u64`, in which case (or when either input's length is undeclared) the
result's length is undeclared. -/
theorem claim_C4 :
    (∀ (b1 b2 : Body) (l1 l2 : Nat), b1.length = some l1 → b2.length = some l2 →
      b1.bytesRead ≤ l1 → b2.bytesRead ≤ l2 → l1 < u64size → l2 < u64size →
      (b1.chain b2).length =
        if (l1 - b1.bytesRead) + (l2 - b2.bytesRead) < u64size
        then some ((l1 - b1.bytesRead) + (l2 - b2.bytesRead)) else none) ∧
    (∀ b1 b2 : Body, b1.length = none ∨ b2.length = none → (b1.chain b2).length = none) := by
  constructor
  · intro b1 b2 l1 l2 hl1 hl2 hb1 hb2 h64a h64b
    cases b1 with
    | mk r1 m1 len1 n1 =>
      cases b2 with
      | mk r2 m2 len2 n2 =>
        simp only [Body.length] at hl1 hl2
        subst hl1
        subst hl2
        simp only [Body.bytesRead] at hb1 hb2 ⊢
        simp only [Body.chain, Body.length, Body.bytesRead, chainLength]
        rw [wsub_eq_sub hb1 h64a, wsub_eq_sub hb2 h64b]
        rfl
  · intro b1 b2 h
    cases b1 with
    | mk r1 m1 len1 n1 =>
      cases b2 with
      | mk r2 m2 len2 n2 =>
        simp only [Body.length] at h
        simp only [Body.chain, Body.length, Body.bytesRead]
        rcases len1 with _ | L1 <;> rcases len2 with _ | L2 <;>
          simp only [chainLength]
        rcases h with h | h <;> exact absurd h (by simp)

theorem claim_C4_witness :
    ((((Body.from_reader (.cursor [0, 1, 2, 3, 4, 5, 6, 7, 8, 9, 10] 0) (some 11)).pollRead
        5).2).chain (Body.from_reader (.cursor [0, 1, 2, 3, 4, 5, 6, 7, 8] 0) (some 9))).length =
      some 15 := by
  have h := claim_C4.1
    (((Body.from_reader (.cursor [0, 1, 2, 3, 4, 5, 6, 7, 8, 9, 10] 0) (some 11)).pollRead 5).2)
    (Body.from_reader (.cursor [0, 1, 2, 3, 4, 5, 6, 7, 8] 0) (some 9)) 11 9
    (by decide) rfl (by decide) (by decide) (by norm_num [u64size]) (by norm_num [u64size])
  rw [h]
  decide

/-- Claim C5: the chained body keeps the MIME value when the two inputs
agree on it (including both absent) and falls back to the byte-stream type
otherwise. -/
theorem claim_C5 (b1 b2 : Body) :
    (b1.chain b2).mime = if b1.mime = b2.mime then b1.mime else some Mime.byteStream := rfl

/-- Claim C6: chaining is associative in observed output: draining
`chain (chain A B) Cb` produces byte-for-byte the same sequence as draining
`chain A (chain B Cb)`, whatever the declared or undeclared lengths and
prior partial consumption of the three well-formed inputs. -/
theorem claim_C6 (A B Cb : Body) (hA : A.wf = true) (hB : B.wf = true) (hC : Cb.wf = true)
    (c fuel : Nat) (hc : 1 ≤ c)
    (hfuel : (A.out).length + (B.out).length + (Cb.out).length < fuel) :
    (((A.chain B).chain Cb).readAll c fuel).1 = ((A.chain (B.chain Cb)).readAll c fuel).1 := by
  have wAB := Body.chain_wf A B hA hB
  have wBC := Body.chain_wf B Cb hB hC
  have w1 := Body.chain_wf _ _ wAB hC
  have w2 := Body.chain_wf _ _ hA wBC
  have o1 : ((A.chain B).chain Cb).out = (A.out ++ B.out) ++ Cb.out := by
    rw [Body.chain_out _ _ wAB hC, Body.chain_out _ _ hA hB]
  have o2 : (A.chain (B.chain Cb)).out = A.out ++ (B.out ++ Cb.out) := by
    rw [Body.chain_out _ _ hA wBC, Body.chain_out _ _ hB hC]
  rw [Body.readAll_out c fuel _ hc w1 (by rw [o1]; simp only [List.length_append]; omega),
    Body.readAll_out c fuel _ hc w2 (by rw [o2]; simp only [List.length_append]; omega),
    o1, o2, List.append_assoc]

theorem claim_C6_witness :
    ((((Body.from_string [1, 2]).chain (Body.from_bytes [3])).chain
        (Body.from_reader (.cursor [4, 5, 6] 0) (some 2))).readAll 1 10).1 =
      (((Body.from_string [1, 2]).chain ((Body.from_bytes [3]).chain
        (Body.from_reader (.cursor [4, 5, 6] 0) (some 2)))).readAll 1 10).1 :=
  claim_C6 (Body.from_string [1, 2]) (Body.from_bytes [3])
    (Body.from_reader (.cursor [4, 5, 6] 0) (some 2))
    (by decide) (by decide) (by decide) 1 10 (by norm_num) (by decide)

/-- Claim C7: the buffered-peek path forwards straight to the wrapped
source, with no declared-length cutoff: a body declaring length 1 over a
3-byte source exposes all 3 bytes to peek, and after `consume 1` still
exposes the bytes beyond the declared length. -/
theorem claim_C7 :
    (∀ b : Body, b.fillBuf =
      (((b.reader).fillBuf).1,
       Body.mk ((b.reader).fillBuf).2 b.mime b.length b.bytesRead)) ∧
    ((Body.from_reader (.cursor [7, 8, 9] 0) (some 1)).len = some 1 ∧
     ((Body.from_reader (.cursor [7, 8, 9] 0) (some 1)).fillBuf).1 = [7, 8, 9] ∧
     1 < (((Body.from_reader (.cursor [7, 8, 9] 0) (some 1)).fillBuf).1).length ∧
     (((Body.from_reader (.cursor [7, 8, 9] 0) (some 1)).consumeAmt 1).fillBuf).1 = [8, 9]) := by
  constructor
  · intro b
    cases b
    rfl
  · exact ⟨rfl, rfl, by decide, rfl⟩

/-- Claim C8: a bounded read, a peek and a consume change only `bytes_read`
and the reader state: `length` and `mime` are untouched, and `len()` keeps
returning the stored `length` rather than anything derived from
`bytes_read`. -/
theorem claim_C8 (b : Body) (c amt : Nat) :
    ((b.pollRead c).2).length = b.length ∧ ((b.pollRead c).2).mime = b.mime ∧
    ((b.fillBuf).2).length = b.length ∧ ((b.fillBuf).2).mime = b.mime ∧
    (b.consumeAmt amt).length = b.length ∧ (b.consumeAmt amt).mime = b.mime ∧
    b.len = b.length :=
  ⟨Body.pollRead_length c b, Body.pollRead_mime c b, (Body.fillBuf_fields b).1,
   (Body.fillBuf_fields b).2.1, (Body.consumeAmt_fields amt b).1,
   (Body.consumeAmt_fields amt b).2.1, rfl⟩

/-- Claim C9: `into_string` fails with `PayloadTooLarge` before any read
when the declared length exceeds the platform size limit; an absent length
gives capacity hint 0 only and the successful result is the full drained
content (assuming it passes the UTF-8 check). -/
theorem claim_C9 :
    (∀ (usizeMax : Nat) (valid : List Nat → Bool) (c fuel : Nat) (b : Body) (L : Nat),
      b.length = some L → usizeMax < L →
      b.into_string usizeMax valid c fuel = .error .payloadTooLarge) ∧
    (∀ (usizeMax : Nat) (valid : List Nat → Bool) (c fuel : Nat) (b : Body),
      b.length = none → valid ((b.readAll c fuel).1) = true →
      b.into_string usizeMax valid c fuel = .ok (0, (b.readAll c fuel).1)) ∧
    (∀ (usizeMax : Nat) (valid : List Nat → Bool) (c fuel : Nat) (b : Body),
      b.length = none → b.wf = true → 1 ≤ c → (b.out).length < fuel →
      valid (b.out) = true →
      b.into_string usizeMax valid c fuel = .ok (0, b.out)) := by
  refine ⟨?_, ?_, ?_⟩
  · intro usizeMax valid c fuel b L hL hgt
    unfold Body.into_string
    rw [Body.len, hL]
    simp only [Option.getD_some]
    rw [if_neg (by omega)]
  · intro usizeMax valid c fuel b hnone hvalid
    unfold Body.into_string
    rw [Body.len, hnone]
    simp only [Option.getD_none]
    rw [if_pos (Nat.zero_le _), if_pos hvalid]
  · intro usizeMax valid c fuel b hnone hwf hc hfuel hvalid
    have hdrain := Body.readAll_out c fuel b hc hwf hfuel
    unfold Body.into_string
    rw [Body.len, hnone]
    simp only [Option.getD_none]
    rw [if_pos (Nat.zero_le _), hdrain, if_pos hvalid]

theorem claim_C9_witness :
    ((Body.from_reader (.cursor [7, 8] 0) (some (2 ^ 40))).into_string (2 ^ 32 - 1)
        (fun _ => true) 1 0 = .error .payloadTooLarge) ∧
    ((Body.from_reader (.cursor [7, 8] 0) none).into_string (2 ^ 32 - 1)
        (fun _ => true) 1 5 = .ok (0, (Body.from_reader (.cursor [7, 8] 0) none).out)) :=
  ⟨claim_C9.1 (2 ^ 32 - 1) (fun _ => true) 1 0 _ (2 ^ 40) rfl (by norm_num),
   claim_C9.2.2 (2 ^ 32 - 1) (fun _ => true) 1 5 _ rfl (by decide) (by norm_num)
     (by decide) rfl⟩

/-- Claim C10: for bodies reachable through the public constructors and
operations and carrying declared lengths, `bytes_read` never exceeds the
length, so the wrapping `u64` subtractions performed by `chain` equal the
exact differences — they never wrap. -/
theorem claim_C10 (b1 b2 : Body) (l1 l2 : Nat) (h1 : Reachable b1) (h2 : Reachable b2)
    (hl1 : b1.length = some l1) (hl2 : b2.length = some l2) :
    b1.bytesRead ≤ l1 ∧ b2.bytesRead ≤ l2 ∧
    wsub l1 (b1.bytesRead) = l1 - b1.bytesRead ∧
    wsub l2 (b2.bytesRead) = l2 - b2.bytesRead := by
  obtain ⟨ha, ha64⟩ := reachable_inv b1 h1 l1 hl1
  obtain ⟨hb, hb64⟩ := reachable_inv b2 h2 l2 hl2
  exact ⟨ha, hb, wsub_eq_sub ha ha64, wsub_eq_sub hb hb64⟩

theorem claim_C10_witness :
    (((Body.from_bytes [1, 2, 3]).pollRead 2).2).bytesRead ≤ 3 ∧
    (Body.from_string [4]).bytesRead ≤ 1 ∧
    wsub 3 ((((Body.from_bytes [1, 2, 3]).pollRead 2).2).bytesRead) =
      3 - (((Body.from_bytes [1, 2, 3]).pollRead 2).2).bytesRead ∧
    wsub 1 ((Body.from_string [4]).bytesRead) = 1 - (Body.from_string [4]).bytesRead :=
  claim_C10 (((Body.from_bytes [1, 2, 3]).pollRead 2).2) (Body.from_string [4]) 3 1
    (Reachable.read _ 2 (Reachable.from_bytes [1, 2, 3] (by norm_num [u64size])))
    (Reachable.from_string [4] (by norm_num [u64size]))
    (by decide) rfl

end HttpBody
